import Mathlib

/-!
# alt-textify: caption extraction, sampling loop and HTTP handler

A shallow embedding of `main.go`.  Go strings are modelled as lists of Unicode
code points (`Str`), i.e. the development covers well-formed UTF-8 text.
-/

namespace AltTextify

/-- A Go string, as its sequence of code points. -/
abbrev Str := List Char

/-! ## The regular expressions of `parseOutput` -/

/-- The regular-expression constructs that occur in the patterns of `parseOutput`:
a literal character, the lazy repetition `.*?` (optionally wrapped in a capture
group, `(.*?)`), and the end-of-text anchor `$`. -/
inductive Item where
  | lit (c : Char)
  | lazyDots (captured : Bool)
  | eot
  deriving DecidableEq, Repr

/-- Reading of a pattern string.  Only the syntax used by the program is
interpreted: `(.*?)`, `.*?`, the escape `\n`, `$`, and literal characters. -/
def compile : Str → List Item
  | '(' :: '.' :: '*' :: '?' :: ')' :: rest => Item.lazyDots true :: compile rest
  | '.' :: '*' :: '?' :: rest => Item.lazyDots false :: compile rest
  | '\\' :: 'n' :: rest => Item.lit '\n' :: compile rest
  | '$' :: rest => Item.eot :: compile rest
  | c :: rest => Item.lit c :: compile rest
  | [] => []

/-- Backtracking for `.*?` followed by the continuation `k`: first try to stop
here; otherwise consume one character that is not a newline (`.` without the
`s` flag) and retry.  The result is the text of capture group 1. -/
def lazyScan (captured : Bool) (k : Str → Option Str) : Str → Option Str
  | [] => (k []).map (fun g => if captured then [] else g)
  | x :: xs =>
    match k (x :: xs) with
    | some g => some (if captured then [] else g)
    | none =>
      if x = '\n' then none
      else (lazyScan captured k xs).map (fun g => if captured then x :: g else g)

/-- Anchored match of a compiled pattern at the start of the text, in the
order a backtracking engine explores (leftmost-first semantics of Go's
`regexp`).  Returns the text of capture group 1 of the first match found. -/
def matchHere : List Item → Str → Option Str
  | [], _ => some []
  | Item.lit c :: rest, s =>
    match s with
    | x :: xs => if x = c then matchHere rest xs else none
    | [] => none
  | Item.eot :: rest, s =>
    match s with
    | [] => matchHere rest []
    | _ :: _ => none
  | Item.lazyDots captured :: rest, s => lazyScan captured (matchHere rest) s

/-- The function `FindStringSubmatch`, restricted to capture group 1: the leftmost
position at which the pattern matches decides the result; `none` when the
pattern matches nowhere. -/
def findSubmatch (p : List Item) : Str → Option Str
  | [] => matchHere p []
  | x :: xs =>
    match matchHere p (x :: xs) with
    | some g => some g
    | none => findSubmatch p xs

/-- The first pattern of `parseOutput`: a double-quoted string. -/
def quotedPattern : Str := "\"(.*?)\"".toList

/-- The second pattern of `parseOutput`: the progress line `Added image '...'`, a
newline, one space, and the caption up to the end of the text. -/
def addedImagePattern : Str := "Added image '.*?'\\n (.*?)$".toList

/-- The compiled tail of the progress-line pattern, after `Added image '.*?`: the
closing apostrophe, the newline, the space, the captured caption and `$`. -/
def captionItems : List Item :=
  [Item.lit (Char.ofNat 39), Item.lit '\n', Item.lit ' ', Item.lazyDots true, Item.eot]

/-- The pattern list of `parseOutput`, in source order. -/
def patterns : List Str := [quotedPattern, addedImagePattern]

/-! ## `strings.TrimSpace` -/

/-- White space as defined by Unicode (`unicode.IsSpace`). -/
def isSpace (c : Char) : Bool :=
  let n := c.toNat
  (0x09 ≤ n && n ≤ 0x0d) || n = 0x20 || n = 0x85 || n = 0xa0 || n = 0x1680 ||
  (0x2000 ≤ n && n ≤ 0x200a) || n = 0x2028 || n = 0x2029 || n = 0x202f ||
  n = 0x205f || n = 0x3000

/-- Removal of trailing white space. -/
def trimRight (s : Str) : Str := (s.reverse.dropWhile isSpace).reverse

/-- The function `strings.TrimSpace`: all leading and trailing white space removed. -/
def trimSpace (s : Str) : Str := trimRight (s.dropWhile isSpace)

/-! ## `parseOutput` -/

/-- The loop of `parseOutput` over the remaining patterns: the first pattern
with a match returns its capture group; with no pattern left the trimmed
output is returned. -/
def parseWith (output : Str) : List Str → Str
  | [] => trimSpace output
  | pattern :: rest =>
    match findSubmatch (compile pattern) output with
    | some g => g
    | none => parseWith output rest

/-- The function `parseOutput`. -/
def parseOutput (output : Str) : Str := parseWith output patterns

/-! ## `fmt.Sscanf(cnt, "%d", &count)` -/

/-- The routine `SkipSpace` of the scanner behind `Sscanf`: white space is skipped, a
carriage return directly before a newline is skipped, and a newline is an
error (`none`). -/
def skipSpace : Str → Option Str
  | [] => some []
  | r :: rest =>
    if r = '\r' ∧ rest.head? = some '\n' then skipSpace rest
    else if r = '\n' then none
    else if isSpace r then skipSpace rest
    else some (r :: rest)

/-- Characters accepted by the verb `%d` after the sign: `0123456789`. -/
def isDecimalDigit (c : Char) : Bool :=
  '0'.toNat ≤ c.toNat && c.toNat ≤ '9'.toNat

/-- The digit loop of `strconv.ParseUint` in base 10 on an unbounded accumulator:
a character outside `0`..`9` is a syntax error. -/
def parseDigits : Nat → Str → Option Nat
  | acc, [] => some acc
  | acc, c :: cs =>
    if '0'.toNat ≤ c.toNat ∧ c.toNat ≤ '9'.toNat then
      parseDigits (acc * 10 + (c.toNat - '0'.toNat)) cs
    else none

/-- The function `strconv.ParseInt(tok, 10, 64)`: an optional sign, at least one digit,
and a value in the range of a 64-bit signed integer. -/
def parseInt (tok : Str) : Option Int :=
  let neg := tok.head? = some '-'
  let digits := if tok.head? = some '+' ∨ tok.head? = some '-' then tok.tail else tok
  if digits = [] then none
  else
    match parseDigits 0 digits with
    | none => none
    | some un =>
      if ¬ neg ∧ un ≥ 2 ^ 63 then none
      else if neg ∧ un > 2 ^ 63 then none
      else some (if neg then - (un : Int) else (un : Int))

/-- The scan of one `%d` operand (`scanInt` for an `int` of 64 bits): leading space
is skipped, one sign is accepted, then the longest run of `0123456789`,
which must not be empty, is handed to `ParseInt`.  Text after the number is
left unread.  (The width limit of `2^30` characters for one operand is not
modelled.) -/
def scanInt (input : Str) : Option Int :=
  match skipSpace input with
  | none => none
  | some [] => none
  | some (c :: cs) =>
    let sgn : Str := if c = '+' ∨ c = '-' then [c] else []
    let rest : Str := if c = '+' ∨ c = '-' then cs else c :: cs
    let tok := rest.takeWhile isDecimalDigit
    if tok = [] then none else parseInt (sgn ++ tok)

/-- The call `fmt.Sscanf(input, "%d", &dest)` with its results discarded: `dest` is
assigned when the scan succeeds and keeps its value when it fails. -/
def sscanfInt (input : Str) (dest : Int) : Int :=
  match scanInt input with
  | some v => v
  | none => dest

/-! ## Slices, JSON and HTTP responses -/

/-- A Go slice of strings: the nil slice, or an allocated slice with its elements. -/
inductive Slice where
  | nil
  | mk (elems : List Str)
  deriving DecidableEq, Repr

/-- The elements of a slice. -/
def Slice.toList : Slice → List Str
  | Slice.nil => []
  | Slice.mk elems => elems

/-- The builtin `append(s, x)`: appending to the nil slice allocates. -/
def Slice.append : Slice → Str → Slice
  | Slice.nil, x => Slice.mk [x]
  | Slice.mk elems, x => Slice.mk (elems ++ [x])

/-- A JSON value as `encoding/json` produces it for a `[]string`. -/
inductive JsonValue where
  | null
  | array (items : List Str)
  deriving DecidableEq, Repr

/-- A JSON object: its members in order. -/
abbrev JsonObject := List (Str × JsonValue)

/-- The struct `AltTextResponse`. -/
structure AltTextResponse where
  AltTexts : Slice
  deriving DecidableEq, Repr

/-- Encoding of a `[]string` by `encoding/json`: a nil slice encodes as the JSON
value null, any other slice as a JSON array of its strings. -/
def marshalSlice : Slice → JsonValue
  | Slice.nil => JsonValue.null
  | Slice.mk elems => JsonValue.array elems

/-- Encoding of `AltTextResponse`, whose only field carries the tag `alt_texts`. -/
def marshal (r : AltTextResponse) : JsonObject :=
  [("alt_texts".toList, marshalSlice r.AltTexts)]

/-- What a handler wrote to its `http.ResponseWriter`: either one call
`http.Error(w, msg, code)` (status `code`, plain-text body carrying `msg`), or
a `Content-Type` header followed by an encoded JSON document, sent with the
implicit status 200. -/
inductive Response where
  | error (msg : Str) (code : Nat)
  | json (contentType : Str) (body : JsonObject)
  deriving DecidableEq, Repr

/-- The status code of a response. -/
def Response.status : Response → Nat
  | Response.error _ code => code
  | Response.json _ _ => 200

/-- Decoded query parameters, in the order of the URL. -/
abbrev Query := List (Str × Str)

/-- The method `url.Values.Get`: the first value of the key, or the empty string. -/
def Query.get : Query → Str → Str
  | [], _ => []
  | (k, v) :: rest, key => if k = key then v else Query.get rest key

/-! ## The sampling loop, the handler and the command line -/

/-- The external command `runOllamaCommand`, injected: given the image path, the model
and the number of invocations made before this one, either an error message
or the captured standard output. -/
abbrev Invoker := Str → Str → Nat → Except Str Str

/-- The loop `for i := 0; i < count; i++ { ... }` shared by `altTextHandler` and
`main`.  The first argument is the number of iterations left; `i` is the loop
counter, which is also the number of invocations made so far.  The result is
the error of the first failed invocation or the collected slice, together
with the number of invocations made. -/
def sampleLoop (run : Nat → Except Str Str) : Nat → Nat → Slice → Except Str Slice × Nat
  | 0, i, altTexts => (Except.ok altTexts, i)
  | n + 1, i, altTexts =>
    match run i with
    | Except.error err => (Except.error err, i + 1)
    | Except.ok output =>
      let altText := parseOutput output
      sampleLoop run n (i + 1) (if altText ≠ [] then altTexts.append altText else altTexts)

/-- The count used by `altTextHandler`: 3, overwritten by `Sscanf` when the `count`
parameter is not empty. -/
def effectiveCount (query : Query) : Int :=
  let count : Int := 3
  let cnt := query.get "count".toList
  if cnt ≠ [] then sscanfInt cnt count else count

/-- The model used by `altTextHandler`: the `model` parameter, or `llava` when it is
empty. -/
def effectiveModel (query : Query) : Str :=
  let model := query.get "model".toList
  if model = [] then "llava".toList else model

/-- The function `altTextHandler`: the response written, and the number of invocations
of the external command. -/
def altTextHandler (run : Invoker) (query : Query) : Response × Nat :=
  let imagePath := query.get "image_path".toList
  let count := effectiveCount query
  let model := effectiveModel query
  if imagePath = [] then
    (Response.error "image_path is required".toList 400, 0)
  else
    match sampleLoop (run imagePath model) count.toNat 0 Slice.nil with
    | (Except.error err, calls) =>
      (Response.error ("Error executing command: ".toList ++ err) 500, calls)
    | (Except.ok altTexts, calls) =>
      (Response.json "application/json".toList (marshal { AltTexts := altTexts }), calls)

/-- The captions the specification expects from the raw outputs of successive
invocations: each output parsed, the empty results left out, the order kept. -/
def expectedCaptions (outs : List Str) : List Str :=
  (outs.map parseOutput).filter (fun c => c ≠ [])

/-- The numbered lines `fmt.Printf("%d. %s\n", i+1, altText)`. -/
def numbered : Nat → List Str → List Str
  | _, [] => []
  | i, altText :: rest => ((Nat.repr (i + 1)).toList ++ ". ".toList ++ altText) :: numbered (i + 1) rest

/-- The branch of `main` that captions one image from the command line (an image
path is given, neither `-help` nor `-server`): the lines printed, and the
number of invocations of the external command. -/
def mainGenerate (run : Invoker) (imagePath : Str) (count : Int) (model : Str) : List Str × Nat :=
  match sampleLoop (run imagePath model) count.toNat 0 Slice.nil with
  | (Except.error err, calls) => (["Error executing command: ".toList ++ err], calls)
  | (Except.ok altTexts, calls) =>
    if altTexts.toList.length > 0 then
      ("Generated Alt Texts:".toList :: numbered 0 altTexts.toList, calls)
    else (["No alt texts generated.".toList], calls)

/-! ## The two patterns, compiled -/

theorem compile_quotedPattern :
    compile quotedPattern = [Item.lit '"', Item.lazyDots true, Item.lit '"'] := by
  decide

theorem compile_addedImagePattern :
    compile addedImagePattern =
      "Added image '".toList.map Item.lit ++
        [Item.lazyDots false, Item.lit (Char.ofNat 39), Item.lit '\n', Item.lit ' ',
          Item.lazyDots true, Item.eot] := by
  decide

/-- A run of literal characters matches exactly when the text starts with it. -/
theorem matchHere_lits (lits : Str) (rest : List Item) (t : Str) :
    matchHere (lits.map Item.lit ++ rest) (lits ++ t) = matchHere rest t := by
  induction lits with
  | nil => rfl
  | cons c cs ih => simp [matchHere, ih]

theorem matchHere_lits_some (lits : Str) (rest : List Item) (t g : Str)
    (h : matchHere (lits.map Item.lit ++ rest) t = some g) : lits <+: t := by
  induction lits generalizing t with
  | nil => simp
  | cons c cs ih =>
    cases t with
    | nil => simp [matchHere] at h
    | cons x xs =>
      simp only [List.map_cons, List.cons_append, matchHere] at h
      by_cases hx : x = c
      · subst hx
        simp only [if_true] at h
        simpa using ih xs h
      · simp [hx] at h

theorem findSubmatch_cons_some (p : List Item) (x : Char) (xs g : Str)
    (h : matchHere p (x :: xs) = some g) : findSubmatch p (x :: xs) = some g := by
  rw [findSubmatch, h]

theorem findSubmatch_cons_none (p : List Item) (x : Char) (xs : Str)
    (h : matchHere p (x :: xs) = none) : findSubmatch p (x :: xs) = findSubmatch p xs := by
  rw [findSubmatch, h]

/-! ## The quoted-string pattern -/

/-- The continuation of `.*?` in the quoted pattern: the closing quote. -/
theorem matchHere_closing (t : Str) :
    matchHere [Item.lit '"'] t = if t.head? = some '"' then some [] else none := by
  cases t with
  | nil => simp [matchHere]
  | cons x xs => by_cases hx : x = '"' <;> simp [matchHere, hx]

section Closing

variable (k : Str → Option Str)
variable (hk : ∀ t, k t = if t.head? = some '"' then some [] else none)
include hk

theorem scan_quote_found (mid post : Str) (hq : '"' ∉ mid) (hn : '\n' ∉ mid) :
    lazyScan true k (mid ++ '"' :: post) = some mid := by
  induction mid with
  | nil => simp [lazyScan, hk]
  | cons x xs ih =>
    simp only [List.mem_cons, not_or] at hq hn
    have hx : ¬ x = '"' := fun h => hq.1 h.symm
    have hx2 : ¬ x = '\n' := fun h => hn.1 h.symm
    simp [lazyScan, hk, hx, hx2, ih hq.2 hn.2]

theorem scan_quote_newline (b rest : Str)
    (h : '\n' ∈ b.takeWhile (fun c => c != '"')) :
    lazyScan true k (b ++ rest) = none := by
  induction b with
  | nil => simp at h
  | cons x xs ih =>
    by_cases hx : x = '"'
    · subst hx
      simp [List.takeWhile] at h
    · have hne : (x != '"') = true := by simpa using hx
      rw [List.takeWhile_cons, hne] at h
      simp only [if_true, List.mem_cons] at h
      by_cases hx2 : x = '\n'
      · simp [lazyScan, hk, hx, hx2]
      · have h2 : '\n' ∈ xs.takeWhile (fun c => c != '"') := by
          rcases h with h | h
          · exact absurd h.symm hx2
          · exact h
        simp [lazyScan, hk, hx, hx2, ih h2]

theorem scan_quote_absent (t : Str) (h : '"' ∉ t) : lazyScan true k t = none := by
  induction t with
  | nil => simp [lazyScan, hk]
  | cons x xs ih =>
    simp only [List.mem_cons, not_or] at h
    have hx : ¬ x = '"' := fun e => h.1 e.symm
    simp [lazyScan, hk, hx, ih h.2]

theorem scan_quote_absent_line (u v : Str) (h : '"' ∉ u) :
    lazyScan true k (u ++ '\n' :: v) = none := by
  induction u with
  | nil => simp [lazyScan, hk]
  | cons x xs ih =>
    simp only [List.mem_cons, not_or] at h
    have hx : ¬ x = '"' := fun e => h.1 e.symm
    simp [lazyScan, hk, hx, ih h.2]

end Closing

theorem matchHere_quoted_cons (x : Char) (t : Str) :
    matchHere (compile quotedPattern) (x :: t) =
      if x = '"' then lazyScan true (matchHere [Item.lit '"']) t else none := by
  rw [compile_quotedPattern]
  rfl

theorem matchHere_quoted_nil : matchHere (compile quotedPattern) [] = none := by
  rw [compile_quotedPattern]
  rfl

/-- The quoted pattern finds the first pair of successive quotes on one line. -/
theorem findSubmatch_quoted (pre mid post : Str) (hq : '"' ∉ mid) (hn : '\n' ∉ mid)
    (hpre : ∀ t ∈ pre.tails, t.head? = some '"' →
      '\n' ∈ t.tail.takeWhile (fun c => c != '"')) :
    findSubmatch (compile quotedPattern) (pre ++ '"' :: mid ++ '"' :: post) = some mid := by
  induction pre with
  | nil =>
    apply findSubmatch_cons_some
    rw [matchHere_quoted_cons, if_pos rfl]
    exact scan_quote_found _ matchHere_closing mid post hq hn
  | cons x xs ih =>
    have hxs : ∀ t ∈ xs.tails, t.head? = some '"' →
        '\n' ∈ t.tail.takeWhile (fun c => c != '"') := by
      intro t ht
      exact hpre t (by simp [ht])
    have hnone : matchHere (compile quotedPattern) (x :: (xs ++ '"' :: mid ++ '"' :: post))
        = none := by
      rw [matchHere_quoted_cons]
      by_cases hx : x = '"'
      · subst hx
        have := hpre ('"' :: xs) (by simp) rfl
        rw [if_pos rfl, List.append_assoc]
        exact scan_quote_newline _ matchHere_closing xs _ this
      · simp [hx]
    have ih2 := ih hxs
    rw [show x :: xs ++ '"' :: mid ++ '"' :: post = x :: (xs ++ '"' :: mid ++ '"' :: post) from rfl,
      findSubmatch_cons_none _ _ _ hnone]
    exact ih2

/-- A text with at most one double quote has no quoted string. -/
theorem findSubmatch_quoted_count (v : Str) (h : v.count '"' ≤ 1) :
    findSubmatch (compile quotedPattern) v = none := by
  induction v with
  | nil => rw [findSubmatch, matchHere_quoted_nil]
  | cons x xs ih =>
    by_cases hx : x = '"'
    · subst hx
      have hc : xs.count '"' = 0 := by simpa using h
      rw [findSubmatch_cons_none]
      · exact ih (by omega)
      · rw [matchHere_quoted_cons, if_pos rfl]
        exact scan_quote_absent _ matchHere_closing xs (List.count_eq_zero.mp hc)
    · have hc : xs.count '"' ≤ 1 := by
        rw [List.count_cons_of_ne (fun e => hx e.symm)] at h
        exact h
      rw [findSubmatch_cons_none]
      · exact ih hc
      · rw [matchHere_quoted_cons, if_neg hx]

/-- A line with at most one double quote contributes no quoted string. -/
theorem findSubmatch_quoted_line (u v : Str) (h : u.count '"' ≤ 1)
    (hv : findSubmatch (compile quotedPattern) v = none) :
    findSubmatch (compile quotedPattern) (u ++ '\n' :: v) = none := by
  induction u with
  | nil =>
    rw [List.nil_append, findSubmatch_cons_none]
    · exact hv
    · rw [matchHere_quoted_cons, if_neg (by decide)]
  | cons x xs ih =>
    rw [List.cons_append]
    by_cases hx : x = '"'
    · subst hx
      have hc : xs.count '"' = 0 := by simpa using h
      rw [findSubmatch_cons_none]
      · exact ih (by omega)
      · rw [matchHere_quoted_cons, if_pos rfl]
        exact scan_quote_absent_line _ matchHere_closing xs v (List.count_eq_zero.mp hc)
    · have hc : xs.count '"' ≤ 1 := by
        rw [List.count_cons_of_ne (fun e => hx e.symm)] at h
        exact h
      rw [findSubmatch_cons_none]
      · exact ih hc
      · rw [matchHere_quoted_cons, if_neg hx]

/-! ## The progress-line pattern -/

theorem scan_to_end_of (k : Str → Option Str) (hk0 : k [] = some [])
    (hk1 : ∀ x xs, k (x :: xs) = none) (text : Str) (hn : '\n' ∉ text) :
    lazyScan true k text = some text := by
  induction text with
  | nil => simp [lazyScan, hk0]
  | cons x xs ih =>
    simp only [List.mem_cons, not_or] at hn
    have hx : ¬ x = '\n' := fun e => hn.1 e.symm
    simp [lazyScan, hk1, hx, ih hn.2]

theorem scan_to_end (text : Str) (hn : '\n' ∉ text) :
    lazyScan true (matchHere [Item.eot]) text = some text :=
  scan_to_end_of (matchHere [Item.eot]) rfl (fun _ _ => rfl) text hn

theorem matchHere_caption (text : Str) (hn : '\n' ∉ text) :
    matchHere captionItems (Char.ofNat 39 :: '\n' :: ' ' :: text) = some text := by
  simp only [captionItems, matchHere, if_true]
  exact scan_to_end text hn

theorem matchHere_caption_second (x y : Char) (t : Str) (hy : y ≠ '\n') :
    matchHere captionItems (x :: y :: t) = none := by
  by_cases hx : x = Char.ofNat 39 <;> simp [captionItems, matchHere, hx, hy]

theorem scan_name (name text g : Str) (hn : '\n' ∉ name)
    (hg : matchHere captionItems (Char.ofNat 39 :: '\n' :: ' ' :: text) = some g) :
    lazyScan false (matchHere captionItems) (name ++ Char.ofNat 39 :: '\n' :: ' ' :: text)
      = some g := by
  induction name with
  | nil => simp [lazyScan, hg]
  | cons x xs ih =>
    simp only [List.mem_cons, not_or] at hn
    have hx : ¬ x = '\n' := fun e => hn.1 e.symm
    have hnone : matchHere captionItems (x :: (xs ++ Char.ofNat 39 :: '\n' :: ' ' :: text))
        = none := by
      cases xs with
      | nil => exact matchHere_caption_second _ _ _ (by decide)
      | cons y ys =>
        have hy : y ≠ '\n' := fun e => hn.2 (by simp [e])
        exact matchHere_caption_second _ _ _ hy
    rw [List.cons_append, lazyScan, hnone]
    simp [hx, ih hn.2]

theorem findSubmatch_of_matchHere (p : List Item) (s g : Str) (h : matchHere p s = some g) :
    findSubmatch p s = some g := by
  cases s with
  | nil => rw [findSubmatch, h]
  | cons x xs => exact findSubmatch_cons_some p x xs g h

/-- The progress-line pattern on a progress line followed by a one-line caption. -/
theorem findSubmatch_addedImage (name text : Str) (hname : '\n' ∉ name) (htext : '\n' ∉ text) :
    findSubmatch (compile addedImagePattern)
      ("Added image '".toList ++ name ++ "'".toList ++ '\n' :: ' ' :: text) = some text := by
  apply findSubmatch_of_matchHere
  rw [compile_addedImagePattern, List.append_assoc, List.append_assoc, matchHere_lits]
  exact scan_name name text text hname (matchHere_caption text htext)

/-- The progress-line pattern matches only texts that contain `Added image '`. -/
theorem findSubmatch_addedImage_contains (s g : Str)
    (h : findSubmatch (compile addedImagePattern) s = some g) :
    "Added image '".toList <:+: s := by
  induction s with
  | nil =>
    rw [findSubmatch, compile_addedImagePattern] at h
    exact absurd (matchHere_lits_some _ _ _ _ h) (by decide)
  | cons x xs ih =>
    cases hm : matchHere (compile addedImagePattern) (x :: xs) with
    | some g2 =>
      rw [compile_addedImagePattern] at hm
      exact (matchHere_lits_some _ _ _ _ hm).isInfix
    | none =>
      rw [findSubmatch_cons_none _ _ _ hm] at h
      exact (ih h).trans (List.suffix_cons x xs).isInfix

/-! ## `strings.TrimSpace` removes exactly the surrounding white space -/

theorem head_dropWhile_isSpace (s : Str) (c : Char)
    (h : (s.dropWhile isSpace).head? = some c) : isSpace c = false := by
  induction s with
  | nil => simp at h
  | cons x xs ih =>
    by_cases hx : isSpace x = true
    · rw [List.dropWhile_cons_of_pos hx] at h
      exact ih h
    · rw [List.dropWhile_cons_of_neg hx] at h
      simp only [List.head?_cons, Option.some.injEq] at h
      subst h
      simpa using hx

theorem trimRight_append (t : Str) :
    t = trimRight t ++ (t.reverse.takeWhile isSpace).reverse := by
  have h := List.takeWhile_append_dropWhile isSpace t.reverse
  have h2 := congrArg List.reverse h
  simp only [List.reverse_append, List.reverse_reverse] at h2
  exact h2.symm

/-- The result of `trimSpace` is the input without a leading and a trailing run of
white space, and neither starts nor ends with white space. -/
theorem trimSpace_spec (s : Str) :
    (∃ l r : Str, s = l ++ trimSpace s ++ r ∧ (∀ c ∈ l, isSpace c = true) ∧
      (∀ c ∈ r, isSpace c = true)) ∧
    (∀ c, (trimSpace s).head? = some c → isSpace c = false) ∧
    (∀ c, (trimSpace s).getLast? = some c → isSpace c = false) := by
  refine ⟨⟨s.takeWhile isSpace, ((s.dropWhile isSpace).reverse.takeWhile isSpace).reverse,
    ?_, ?_, ?_⟩, ?_, ?_⟩
  · rw [List.append_assoc]
    unfold trimSpace
    rw [← trimRight_append, List.takeWhile_append_dropWhile]
  · intro c hc
    exact List.mem_takeWhile_imp hc
  · intro c hc
    exact List.mem_takeWhile_imp (List.mem_reverse.mp hc)
  · intro c hc
    apply head_dropWhile_isSpace s c
    have h := trimRight_append (s.dropWhile isSpace)
    unfold trimSpace at hc
    cases ht : trimRight (s.dropWhile isSpace) with
    | nil => rw [ht] at hc; simp at hc
    | cons y ys =>
      rw [ht] at hc h
      simp only [List.head?_cons, Option.some.injEq] at hc
      rw [h, ← hc]
      rfl
  · intro c hc
    unfold trimSpace trimRight at hc
    rw [List.getLast?_reverse] at hc
    exact head_dropWhile_isSpace _ c hc

/-! ## `parseOutput` by cases on the patterns -/

theorem parseOutput_of_quoted (s q : Str)
    (h : findSubmatch (compile quotedPattern) s = some q) : parseOutput s = q := by
  simp [parseOutput, patterns, parseWith, h]

theorem parseOutput_of_addedImage (s a : Str)
    (hq : findSubmatch (compile quotedPattern) s = none)
    (ha : findSubmatch (compile addedImagePattern) s = some a) : parseOutput s = a := by
  simp [parseOutput, patterns, parseWith, hq, ha]

theorem parseOutput_of_none (s : Str)
    (hq : findSubmatch (compile quotedPattern) s = none)
    (ha : findSubmatch (compile addedImagePattern) s = none) : parseOutput s = trimSpace s := by
  simp [parseOutput, patterns, parseWith, hq, ha]

/-- Any pair of quotes on one line yields a first pair of successive quotes on
one line. -/
theorem exists_first_pair_aux (a m b : Str) (hq : '"' ∉ m) (hn : '\n' ∉ m) :
    ∃ pre mid post : Str, a ++ '"' :: m ++ '"' :: b = pre ++ '"' :: mid ++ '"' :: post ∧
      '"' ∉ mid ∧ '\n' ∉ mid ∧
      ∀ t ∈ pre.tails, t.head? = some '"' →
        '\n' ∈ t.tail.takeWhile (fun c => c != '"') := by
  induction a with
  | nil => exact ⟨[], m, b, rfl, hq, hn, by simp⟩
  | cons x a ih =>
    obtain ⟨pre, mid, post, heq, hq2, hn2, hpre⟩ := ih
    have heq2 : x :: a ++ '"' :: m ++ '"' :: b = x :: (pre ++ '"' :: mid ++ '"' :: post) := by
      rw [← heq]
      rfl
    by_cases hx : x = '"'
    · by_cases hnl : '\n' ∈ pre.takeWhile (fun c => c != '"')
      · refine ⟨x :: pre, mid, post, heq2, hq2, hn2, ?_⟩
        intro t ht hhead
        rw [List.tails_cons, List.mem_cons] at ht
        rcases ht with ht | ht
        · subst ht
          exact hnl
        · exact hpre t ht hhead
      · have hsplit := List.takeWhile_append_dropWhile (fun c => c != '"') pre
        have hw : '"' ∉ pre.takeWhile (fun c => c != '"') := by
          intro hmem
          have := List.mem_takeWhile_imp hmem
          simp at this
        cases hr : pre.dropWhile (fun c => c != '"') with
        | nil =>
          refine ⟨[], pre.takeWhile (fun c => c != '"'), mid ++ '"' :: post, ?_, hw, hnl,
            by simp⟩
          rw [heq2, hx]
          rw [hr, List.append_nil] at hsplit
          rw [hsplit]
          simp
        | cons y r =>
          have hy : y = '"' := by
            have h1 := List.head?_dropWhile_not (fun c => c != '"') pre
            rw [hr] at h1
            simpa using h1
          refine ⟨[], pre.takeWhile (fun c => c != '"'), r ++ '"' :: mid ++ '"' :: post, ?_,
            hw, hnl, by simp⟩
          rw [heq2, hx]
          rw [hr, hy] at hsplit
          nth_rewrite 1 [← hsplit]
          simp
    · refine ⟨x :: pre, mid, post, heq2, hq2, hn2, ?_⟩
      intro t ht hhead
      rw [List.tails_cons, List.mem_cons] at ht
      rcases ht with ht | ht
      · subst ht
        simp only [List.head?_cons, Option.some.injEq] at hhead
        exact absurd hhead hx
      · exact hpre t ht hhead

theorem exists_first_pair (a m b : Str) (hn : '\n' ∉ m) :
    ∃ pre mid post : Str, a ++ '"' :: m ++ '"' :: b = pre ++ '"' :: mid ++ '"' :: post ∧
      '"' ∉ mid ∧ '\n' ∉ mid ∧
      ∀ t ∈ pre.tails, t.head? = some '"' →
        '\n' ∈ t.tail.takeWhile (fun c => c != '"') := by
  by_cases hq : '"' ∈ m
  · obtain ⟨m1, m2, hm, hq1⟩ := List.eq_append_cons_of_mem hq
    have hn1 : '\n' ∉ m1 := fun hmem => hn (by rw [hm]; simp [hmem])
    obtain ⟨pre, mid, post, heq, h2⟩ := exists_first_pair_aux a m1 (m2 ++ '"' :: b) hq1 hn1
    refine ⟨pre, mid, post, ?_, h2⟩
    rw [← heq, hm]
    simp
  · exact exists_first_pair_aux a m b hq hn

/-- The text between the first pair of successive quotes on one line is returned. -/
theorem parseOutput_of_first_pair (pre mid post : Str) (hq : '"' ∉ mid) (hn : '\n' ∉ mid)
    (hpre : ∀ t ∈ pre.tails, t.head? = some '"' →
      '\n' ∈ t.tail.takeWhile (fun c => c != '"')) :
    parseOutput (pre ++ '"' :: mid ++ '"' :: post) = mid :=
  parseOutput_of_quoted _ _ (findSubmatch_quoted pre mid post hq hn hpre)

/-! ## Claims about `parseOutput` -/

/-- C1 (amended): for every output that contains a double quote followed on the
same line (no newline in between) by another double quote, `parseOutput` returns
exactly the text between the first pair of successive quotes on one line,
quotes removed: the output splits as `pre`, quote, `mid`, quote, `post`, where
`mid` holds neither a quote nor a newline and every quote of `pre` is cut off
from the quote after it by a newline, and the result is `mid`. -/
theorem parseOutput_quoted_same_line (s : Str)
    (h : ∃ a m b : Str, s = a ++ '"' :: m ++ '"' :: b ∧ '\n' ∉ m) :
    ∃ pre mid post : Str, s = pre ++ '"' :: mid ++ '"' :: post ∧ '"' ∉ mid ∧ '\n' ∉ mid ∧
      (∀ t ∈ pre.tails, t.head? = some '"' →
        '\n' ∈ t.tail.takeWhile (fun c => c != '"')) ∧
      parseOutput s = mid := by
  obtain ⟨a, m, b, hs, hm⟩ := h
  obtain ⟨pre, mid, post, heq, hq, hn, hpre⟩ := exists_first_pair a m b hm
  refine ⟨pre, mid, post, hs.trans heq, hq, hn, hpre, ?_⟩
  rw [hs, heq]
  exact parseOutput_of_first_pair pre mid post hq hn hpre

/-- C1, witness: in `"a⏎"b" c` the first quote is cut off by the newline, the pair
around `b` is returned. -/
theorem parseOutput_quoted_same_line_witness :
    (∃ pre mid post : Str, "\"a\n\"b\" c".toList = pre ++ '"' :: mid ++ '"' :: post ∧
      '"' ∉ mid ∧ '\n' ∉ mid ∧
      (∀ t ∈ pre.tails, t.head? = some '"' →
        '\n' ∈ t.tail.takeWhile (fun c => c != '"')) ∧
      parseOutput "\"a\n\"b\" c".toList = mid) ∧
    parseOutput "\"a\n\"b\" c".toList = "b".toList :=
  ⟨parseOutput_quoted_same_line "\"a\n\"b\" c".toList
    ⟨"\"a\n".toList, "b".toList, " c".toList, by decide, by decide⟩, by decide⟩

/-- C1, counterexample: the output `"a⏎b"` contains a quote followed later by
another quote, yet the result is not the text `a⏎b` between them: no pattern
matches across the newline and the whole output comes back, quotes included. -/
theorem parseOutput_quoted_counterexample :
    parseOutput "\"a\nb\"".toList = "\"a\nb\"".toList ∧
      parseOutput "\"a\nb\"".toList ≠ "a\nb".toList := by
  decide

/-- C4 (amended): for a name and a caption text that contain no newline and at
most one double quote each, `parseOutput` applied to `Added image '<name>'`,
a newline, one space and the text returns exactly the text. -/
theorem parseOutput_progress_line (name text : Str) (hname : '\n' ∉ name)
    (htext : '\n' ∉ text) (hqn : name.count '"' ≤ 1) (hqt : text.count '"' ≤ 1) :
    parseOutput ("Added image '".toList ++ name ++ "'".toList ++ '\n' :: ' ' :: text)
      = text := by
  apply parseOutput_of_addedImage
  · apply findSubmatch_quoted_line
    · have h1 : ("Added image '".toList).count '"' = 0 := by decide
      have h2 : ("'".toList).count '"' = 0 := by decide
      rw [List.count_append, List.count_append, h1, h2]
      omega
    · apply findSubmatch_quoted_count
      rw [List.count_cons_of_ne (by decide)]
      exact hqt
  · exact findSubmatch_addedImage name text hname htext

/-- C4, witness: the progress line for `cat.png` followed by a caption. -/
theorem parseOutput_progress_line_witness :
    parseOutput ("Added image '".toList ++ "cat.png".toList ++ "'".toList ++
      '\n' :: ' ' :: "A cat on a mat.".toList) = "A cat on a mat.".toList :=
  parseOutput_progress_line "cat.png".toList "A cat on a mat.".toList (by decide) (by decide)
    (by decide) (by decide)

/-- C4, counterexample: a caption with a quoted phrase yields the phrase, a
caption of two lines and a name holding a newline yield the whole trimmed
output; in none of the three cases is the caption text returned. -/
theorem parseOutput_progress_line_counterexample :
    parseOutput ("Added image '".toList ++ "x".toList ++ "'".toList ++
        '\n' :: ' ' :: "A \"big\" cat.".toList) = "big".toList ∧
      parseOutput ("Added image '".toList ++ "x".toList ++ "'".toList ++
        '\n' :: ' ' :: "A cat.\nOn a mat.".toList) ≠ "A cat.\nOn a mat.".toList ∧
      parseOutput ("Added image '".toList ++ "a\nb".toList ++ "'".toList ++
        '\n' :: ' ' :: "A cat.".toList) ≠ "A cat.".toList := by
  decide

/-- C5: on an output that matches neither pattern, and in particular on an output
with no double quote and no occurrence of `Added image '`, `parseOutput` returns
`strings.TrimSpace` of the output: the output minus a leading and a trailing run
of white space, the rest unchanged, with no white space left at either end. -/
theorem parseOutput_fallback (s : Str)
    (h : (findSubmatch (compile quotedPattern) s = none ∧
          findSubmatch (compile addedImagePattern) s = none) ∨
        ('"' ∉ s ∧ ¬ "Added image '".toList <:+: s)) :
    parseOutput s = trimSpace s ∧
    (∃ l r : Str, s = l ++ parseOutput s ++ r ∧ (∀ c ∈ l, isSpace c = true) ∧
      (∀ c ∈ r, isSpace c = true)) ∧
    (∀ c, (parseOutput s).head? = some c → isSpace c = false) ∧
    (∀ c, (parseOutput s).getLast? = some c → isSpace c = false) := by
  have hboth : findSubmatch (compile quotedPattern) s = none ∧
      findSubmatch (compile addedImagePattern) s = none := by
    rcases h with h | ⟨hq, ha⟩
    · exact h
    · refine ⟨findSubmatch_quoted_count s ?_, ?_⟩
      · rw [List.count_eq_zero.mpr hq]
        omega
      · cases hf : findSubmatch (compile addedImagePattern) s with
        | none => rfl
        | some g => exact absurd (findSubmatch_addedImage_contains s g hf) ha
  have heq := parseOutput_of_none s hboth.1 hboth.2
  rw [heq]
  exact ⟨rfl, trimSpace_spec s⟩

/-- C5, witness: an unquoted caption surrounded by blanks and a newline. -/
theorem parseOutput_fallback_witness :
    '"' ∉ "  A cat on a mat. \n".toList ∧
      ¬ "Added image '".toList <:+: "  A cat on a mat. \n".toList ∧
      parseOutput "  A cat on a mat. \n".toList = "A cat on a mat.".toList :=
  ⟨by decide, by decide,
    (parseOutput_fallback "  A cat on a mat. \n".toList (Or.inr ⟨by decide, by decide⟩)).1.trans
      (by decide)⟩

/-- C6 (amended): on an output that matches neither pattern, the string returned
by `parseOutput` has no leading and no trailing white space. -/
theorem parseOutput_trimmed (s : Str)
    (hq : findSubmatch (compile quotedPattern) s = none)
    (ha : findSubmatch (compile addedImagePattern) s = none) :
    (∀ c, (parseOutput s).head? = some c → isSpace c = false) ∧
    (∀ c, (parseOutput s).getLast? = some c → isSpace c = false) := by
  rw [parseOutput_of_none s hq ha]
  exact (trimSpace_spec s).2

/-- C6, witness: a plain caption between blanks. -/
theorem parseOutput_trimmed_witness :
    (∀ c, (parseOutput " A dog. ".toList).head? = some c → isSpace c = false) ∧
    (∀ c, (parseOutput " A dog. ".toList).getLast? = some c → isSpace c = false) :=
  parseOutput_trimmed " A dog. ".toList (by decide) (by decide)

/-- C6, counterexample: the quoted pattern returns its capture as it stands, so the
output `" hi "` (quotes included) gives a caption that starts and ends with a
blank; the progress-line pattern likewise keeps a second leading blank. -/
theorem parseOutput_trimmed_counterexample :
    parseOutput "\" hi \"".toList = " hi ".toList ∧
      (parseOutput "\" hi \"".toList).head? = some ' ' ∧
      (parseOutput "\" hi \"".toList).getLast? = some ' ' ∧ isSpace ' ' = true ∧
      parseOutput "Added image 'x'\n  A cat. ".toList = " A cat. ".toList := by
  decide

/-- C7: when the quoted-string pattern and the progress-line pattern both match,
`parseOutput` returns the capture of the quoted-string pattern; the capture
of the progress-line pattern is returned when the quoted-string pattern has
no match. -/
theorem parseOutput_priority (s a : Str)
    (ha : findSubmatch (compile addedImagePattern) s = some a) :
    (∀ q, findSubmatch (compile quotedPattern) s = some q → parseOutput s = q) ∧
    (findSubmatch (compile quotedPattern) s = none → parseOutput s = a) :=
  ⟨fun q hq => parseOutput_of_quoted s q hq, fun hq => parseOutput_of_addedImage s a hq ha⟩

/-- C7, witness: a progress line whose caption holds a quoted phrase; both patterns
match and the quoted phrase wins. -/
theorem parseOutput_priority_witness :
    findSubmatch (compile addedImagePattern) "Added image 'x'\n A \"big\" cat.".toList
        = some "A \"big\" cat.".toList ∧
      findSubmatch (compile quotedPattern) "Added image 'x'\n A \"big\" cat.".toList
        = some "big".toList ∧
      parseOutput "Added image 'x'\n A \"big\" cat.".toList = "big".toList :=
  ⟨by decide, by decide,
    (parseOutput_priority "Added image 'x'\n A \"big\" cat.".toList "A \"big\" cat.".toList
      (by decide)).1 "big".toList (by decide)⟩

/-! ## The sampling loop -/

theorem Slice.toList_append (acc : Slice) (x : Str) :
    (acc.append x).toList = acc.toList ++ [x] := by
  cases acc <;> rfl

theorem Slice.toList_foldl_append (l : List Str) (acc : Slice) :
    (l.foldl Slice.append acc).toList = acc.toList ++ l := by
  induction l generalizing acc with
  | nil => simp
  | cons x xs ih => simp [ih, Slice.toList_append]

/-- When the next invocations all succeed, the loop makes one invocation for each
iteration and appends the non-empty captions in order. -/
theorem sampleLoop_ok (run : Nat → Except Str Str) (outs : List Str) (i : Nat) (acc : Slice)
    (hok : ∀ k (h : k < outs.length), run (i + k) = Except.ok (outs.get ⟨k, h⟩)) :
    sampleLoop run outs.length i acc =
      (Except.ok ((expectedCaptions outs).foldl Slice.append acc), i + outs.length) := by
  induction outs generalizing i acc with
  | nil => simp [sampleLoop, expectedCaptions]
  | cons o os ih =>
    have h0 : run i = Except.ok o := by
      have := hok 0 (by simp)
      simpa using this
    have hrest : ∀ k (h : k < os.length), run (i + 1 + k) = Except.ok (os.get ⟨k, h⟩) := by
      intro k h
      have := hok (k + 1) (by simp [h])
      rw [show i + 1 + k = i + (k + 1) by omega]
      simpa using this
    rw [List.length_cons, sampleLoop, h0]
    simp only
    rw [ih (i + 1) _ hrest]
    by_cases hp : parseOutput o = []
    · simp [expectedCaptions, hp]
      omega
    · simp [expectedCaptions, hp]
      omega

/-- The first failed invocation ends the loop at once. -/
theorem sampleLoop_error (run : Nat → Except Str Str) (e : Str) (k n i : Nat) (acc : Slice)
    (hk : k < n) (hfail : run (i + k) = Except.error e)
    (hprev : ∀ j, j < k → ∃ o, run (i + j) = Except.ok o) :
    sampleLoop run n i acc = (Except.error e, i + k + 1) := by
  induction k generalizing n i acc with
  | zero =>
    obtain ⟨m, rfl⟩ : ∃ m, n = m + 1 := ⟨n - 1, by omega⟩
    rw [sampleLoop]
    rw [Nat.add_zero] at hfail
    rw [hfail]
  | succ k ih =>
    obtain ⟨m, rfl⟩ : ∃ m, n = m + 1 := ⟨n - 1, by omega⟩
    obtain ⟨o, ho⟩ := hprev 0 (by omega)
    rw [Nat.add_zero] at ho
    rw [sampleLoop, ho]
    simp only
    rw [ih m (i + 1) _ (by omega) (by rw [← hfail]; congr 1; omega)
      (fun j hj => by
        obtain ⟨o2, ho2⟩ := hprev (j + 1) (by omega)
        exact ⟨o2, by rw [← ho2]; congr 1; omega⟩)]
    congr 1
    omega

theorem expectedCaptions_length (outs : List Str) :
    (expectedCaptions outs).length ≤ outs.length := by
  unfold expectedCaptions
  exact (List.length_filter_le _ _).trans (by simp)

theorem expectedCaptions_nonempty (outs : List Str) : [] ∉ expectedCaptions outs := by
  unfold expectedCaptions
  intro h
  simpa using (List.mem_filter.mp h).2

theorem Query.get_of_absent (query : Query) (key : Str) (h : key ∉ query.map Prod.fst) :
    query.get key = [] := by
  induction query with
  | nil => rfl
  | cons kv rest ih =>
    obtain ⟨k, v⟩ := kv
    simp only [List.map_cons, List.mem_cons, not_or] at h
    have hk : ¬ k = key := fun e => h.1 e.symm
    simp [Query.get, hk, ih h.2]

/-! ## Claims about the sampling loop and the handler -/

/-- C2: when the first `N` invocations succeed with outputs `o_1 .. o_N` (here
`N = outs.length`), the loop run with sample count `N` makes exactly `N`
invocations and returns the list of `parseOutput o_1 .. parseOutput o_N`
without the empty strings, in invocation order; there are at most `N`
captions and none is empty.  The command line prints these captions and
`altTextHandler` sends them, both after exactly `N` invocations. -/
theorem sampling_collects (run : Invoker) (imagePath model : Str) (outs : List Str)
    (hok : ∀ k (h : k < outs.length), run imagePath model k = Except.ok (outs.get ⟨k, h⟩)) :
    sampleLoop (run imagePath model) outs.length 0 Slice.nil =
        (Except.ok ((expectedCaptions outs).foldl Slice.append Slice.nil), outs.length) ∧
    ((expectedCaptions outs).foldl Slice.append Slice.nil).toList = expectedCaptions outs ∧
    (expectedCaptions outs).length ≤ outs.length ∧
    [] ∉ expectedCaptions outs ∧
    mainGenerate run imagePath (outs.length : Int) model =
        (if (expectedCaptions outs).length > 0 then
            "Generated Alt Texts:".toList :: numbered 0 (expectedCaptions outs)
          else ["No alt texts generated.".toList], outs.length) ∧
    ∀ query : Query, query.get "image_path".toList = imagePath → imagePath ≠ [] →
      effectiveModel query = model → effectiveCount query = (outs.length : Int) →
      altTextHandler run query =
        (Response.json "application/json".toList
          (marshal { AltTexts := (expectedCaptions outs).foldl Slice.append Slice.nil }),
          outs.length) := by
  have hloop := sampleLoop_ok (run imagePath model) outs 0 Slice.nil
    (fun k h => by rw [Nat.zero_add]; exact hok k h)
  rw [Nat.zero_add] at hloop
  have hlist : ((expectedCaptions outs).foldl Slice.append Slice.nil).toList
      = expectedCaptions outs := by
    rw [Slice.toList_foldl_append]
    rfl
  refine ⟨hloop, hlist, expectedCaptions_length outs, expectedCaptions_nonempty outs, ?_, ?_⟩
  · unfold mainGenerate
    rw [Int.toNat_natCast, hloop]
    simp only [hlist]
    split <;> rfl
  · intro query hpath hne hmodel hcount
    unfold altTextHandler
    simp only [hpath, hmodel, hcount, Int.toNat_natCast, hloop, if_neg hne]

/-- C2, witness: sample count 2, the invoker answers `"a cat on a mat"` (in double
quotes) both times; the response carries the caption twice after two
invocations. -/
theorem sampling_collects_witness :
    altTextHandler (fun _ _ _ => Except.ok "\"a cat on a mat\"".toList)
        [("image_path".toList, "/img.png".toList), ("count".toList, "2".toList),
          ("model".toList, "llava".toList)] =
      (Response.json "application/json".toList
        [("alt_texts".toList,
          JsonValue.array ["a cat on a mat".toList, "a cat on a mat".toList])], 2) :=
  (sampling_collects (fun _ _ _ => Except.ok "\"a cat on a mat\"".toList) "/img.png".toList
    "llava".toList ["\"a cat on a mat\"".toList, "\"a cat on a mat\"".toList]
    (fun k h => by
      have h2 : k < 2 := h
      interval_cases k <;> rfl)).2.2.2.2.2
    [("image_path".toList, "/img.png".toList), ("count".toList, "2".toList),
      ("model".toList, "llava".toList)] (by decide) (by decide) (by decide) (by decide)

/-- C3: when the `k`-th invocation (`1 ≤ k ≤ N`) is the first that fails, the loop
run with sample count `N` ends after exactly `k` invocations with that error
and no slice of captions; the command line prints only the error message and
`altTextHandler` answers with status 500 and the error text. -/
theorem sampling_short_circuit (run : Invoker) (imagePath model e : Str) (N k : Nat)
    (hk1 : 1 ≤ k) (hkN : k ≤ N) (hfail : run imagePath model (k - 1) = Except.error e)
    (hprev : ∀ j, j < k - 1 → ∃ o, run imagePath model j = Except.ok o) :
    sampleLoop (run imagePath model) N 0 Slice.nil = (Except.error e, k) ∧
    mainGenerate run imagePath (N : Int) model =
        (["Error executing command: ".toList ++ e], k) ∧
    ∀ query : Query, query.get "image_path".toList = imagePath → imagePath ≠ [] →
      effectiveModel query = model → effectiveCount query = (N : Int) →
      altTextHandler run query =
          (Response.error ("Error executing command: ".toList ++ e) 500, k) ∧
        (altTextHandler run query).1.status = 500 := by
  have hloop := sampleLoop_error (run imagePath model) e (k - 1) N 0 Slice.nil (by omega)
    (by rw [Nat.zero_add]; exact hfail) (fun j hj => by rw [Nat.zero_add]; exact hprev j hj)
  rw [show 0 + (k - 1) + 1 = k by omega] at hloop
  refine ⟨hloop, ?_, ?_⟩
  · unfold mainGenerate
    rw [Int.toNat_natCast, hloop]
  · intro query hpath hne hmodel hcount
    have hresp : altTextHandler run query =
        (Response.error ("Error executing command: ".toList ++ e) 500, k) := by
      unfold altTextHandler
      simp only [hpath, hmodel, hcount, Int.toNat_natCast, hloop, if_neg hne]
    rw [hresp]
    exact ⟨rfl, rfl⟩

/-- C3, witness: the invoker fails on the 2nd of 3 calls; the request ends with
status 500 after two invocations, the caption of the first call is dropped. -/
theorem sampling_short_circuit_witness :
    altTextHandler
        (fun _ _ i => if i = 1 then Except.error "exit status 1".toList
          else Except.ok "\"a cat\"".toList)
        [("image_path".toList, "/img.png".toList), ("count".toList, "3".toList)] =
      (Response.error "Error executing command: exit status 1".toList 500, 2) :=
  ((sampling_short_circuit
    (fun _ _ i => if i = 1 then Except.error "exit status 1".toList
      else Except.ok "\"a cat\"".toList)
    "/img.png".toList "llava".toList "exit status 1".toList 3 2 (by decide) (by decide) rfl
    (fun j hj => ⟨"\"a cat\"".toList, by
      have hj0 : j = 0 := by omega
      subst hj0
      rfl⟩)).2.2
    [("image_path".toList, "/img.png".toList), ("count".toList, "3".toList)]
    (by decide) (by decide) (by decide) (by decide)).1

/-- C8: a request whose `image_path` parameter is missing or empty is answered with
status 400 and the message `image_path is required`, whatever its `count` and
`model` parameters are, and the external command is not invoked. -/
theorem altTextHandler_image_path_required (run : Invoker) (query : Query)
    (h : "image_path".toList ∉ query.map Prod.fst ∨ query.get "image_path".toList = []) :
    altTextHandler run query = (Response.error "image_path is required".toList 400, 0) ∧
    (altTextHandler run query).1.status = 400 ∧ (altTextHandler run query).2 = 0 := by
  have hempty : query.get "image_path".toList = [] := by
    rcases h with h | h
    · exact Query.get_of_absent query _ h
    · exact h
  have hresp : altTextHandler run query
      = (Response.error "image_path is required".toList 400, 0) := by
    unfold altTextHandler
    simp only [hempty, if_true]
  rw [hresp]
  exact ⟨rfl, rfl, rfl⟩

/-- C8, witness: a request with `count` and `model` but no `image_path`. -/
theorem altTextHandler_image_path_required_witness :
    altTextHandler (fun _ _ _ => Except.ok "\"a cat\"".toList)
        [("count".toList, "5".toList), ("model".toList, "bakllava".toList)] =
      (Response.error "image_path is required".toList 400, 0) :=
  (altTextHandler_image_path_required (fun _ _ _ => Except.ok "\"a cat\"".toList)
    [("count".toList, "5".toList), ("model".toList, "bakllava".toList)]
    (Or.inl (by decide))).1

/-- C10, at the failing inputs: with a non-empty `image_path` and no failed
invocation, a request that collects no caption (every extraction empty, or
sample count 0 or negative) is answered with `Content-Type: application/json`
and status 200, but the member `alt_texts` of the body is the JSON value
null, not the empty array. -/
theorem altTextHandler_no_captions :
    altTextHandler (fun _ _ _ => Except.ok "\"\"".toList)
        [("image_path".toList, "/img.png".toList), ("count".toList, "2".toList)] =
      (Response.json "application/json".toList [("alt_texts".toList, JsonValue.null)], 2) ∧
    altTextHandler (fun _ _ _ => Except.ok "\"a cat\"".toList)
        [("image_path".toList, "/img.png".toList), ("count".toList, "0".toList)] =
      (Response.json "application/json".toList [("alt_texts".toList, JsonValue.null)], 0) ∧
    altTextHandler (fun _ _ _ => Except.ok "\"a cat\"".toList)
        [("image_path".toList, "/img.png".toList), ("count".toList, "-1".toList)] =
      (Response.json "application/json".toList [("alt_texts".toList, JsonValue.null)], 0) ∧
    JsonValue.null ≠ JsonValue.array [] := by
  decide

/-! ## The `count` parameter -/

theorem digitChar_toNat (d : Nat) (h : d < 10) : (Nat.digitChar d).toNat = 48 + d := by
  interval_cases d <;> rfl

theorem digitChar_isSpace (d : Nat) (h : d < 10) : isSpace (Nat.digitChar d) = false := by
  interval_cases d <;> rfl

theorem digitChar_isDecimalDigit (d : Nat) (h : d < 10) :
    isDecimalDigit (Nat.digitChar d) = true := by
  interval_cases d <;> rfl

theorem digitChar_not_sign (d : Nat) (h : d < 10) :
    Nat.digitChar d ≠ '+' ∧ Nat.digitChar d ≠ '-' ∧ Nat.digitChar d ≠ '\r' ∧
      Nat.digitChar d ≠ '\n' := by
  interval_cases d <;> decide

theorem parseDigits_digits (ds : List Nat) (acc : Nat) (h : ∀ d ∈ ds, d < 10) :
    parseDigits acc (ds.map Nat.digitChar) = some (ds.foldl (fun a d => a * 10 + d) acc) := by
  induction ds generalizing acc with
  | nil => rfl
  | cons d ds ih =>
    have hd : d < 10 := h d (by simp)
    have hn := digitChar_toNat d hd
    have hrange : '0'.toNat ≤ (Nat.digitChar d).toNat ∧ (Nat.digitChar d).toNat ≤ '9'.toNat := by
      rw [hn]
      have h0 : '0'.toNat = 48 := rfl
      have h9 : '9'.toNat = 57 := rfl
      omega
    have hval : (Nat.digitChar d).toNat - '0'.toNat = d := by
      rw [hn]
      have h0 : '0'.toNat = 48 := rfl
      omega
    rw [List.map_cons, parseDigits, if_pos hrange, hval, List.foldl_cons]
    exact ih _ (fun x hx => h x (by simp [hx]))

theorem foldl_decimal (ds : List Nat) :
    ds.foldl (fun a d => a * 10 + d) 0 = Nat.ofDigits 10 ds.reverse := by
  induction ds using List.reverseRecOn with
  | nil => rfl
  | append_singleton ds d ih =>
    rw [List.foldl_append, List.reverse_append, ih]
    simp [Nat.ofDigits_cons]
    omega

theorem takeWhile_digits (ds : List Nat) (rest : Str) (h : ∀ d ∈ ds, d < 10)
    (hrest : ∀ c, rest.head? = some c → isDecimalDigit c = false) :
    (ds.map Nat.digitChar ++ rest).takeWhile isDecimalDigit = ds.map Nat.digitChar := by
  induction ds with
  | nil =>
    cases rest with
    | nil => rfl
    | cons c cs => simp [List.takeWhile, hrest c rfl]
  | cons d ds ih =>
    have hd := digitChar_isDecimalDigit d (h d (by simp))
    rw [List.map_cons, List.cons_append, List.takeWhile_cons, hd]
    simp only [if_true]
    rw [ih (fun x hx => h x (by simp [hx]))]

/-- A value that starts with decimal digits: the digits are scanned, what follows
them is ignored, and the number replaces the destination when it fits. -/
theorem scanInt_digits (ds : List Nat) (rest : Str) (hne : ds ≠ []) (h : ∀ d ∈ ds, d < 10)
    (hrest : ∀ c, rest.head? = some c → isDecimalDigit c = false) :
    scanInt (ds.map Nat.digitChar ++ rest) =
      if Nat.ofDigits 10 ds.reverse < 2 ^ 63 then some ((Nat.ofDigits 10 ds.reverse : Nat) : Int)
      else none := by
  have htok := takeWhile_digits ds rest h hrest
  have hval := parseDigits_digits ds 0 h
  rw [foldl_decimal] at hval
  cases ds with
  | nil => exact absurd rfl hne
  | cons d ds =>
    have hd : d < 10 := h d (by simp)
    obtain ⟨hp, hm, hr, hnl⟩ := digitChar_not_sign d hd
    have hsp := digitChar_isSpace d hd
    simp only [List.map_cons, List.cons_append] at htok hval ⊢
    have hskip : skipSpace (Nat.digitChar d :: (ds.map Nat.digitChar ++ rest))
        = some (Nat.digitChar d :: (ds.map Nat.digitChar ++ rest)) := by
      simp [skipSpace, hr, hnl, hsp]
    unfold scanInt
    rw [hskip]
    simp only [hp, hm, or_self, if_false, htok, List.nil_append]
    unfold parseInt
    simp only [List.head?_cons, Option.some.injEq, hp, hm, or_self, if_false, hval]
    generalize Nat.ofDigits 10 (d :: ds).reverse = v
    have hcons : ¬ (Nat.digitChar d :: ds.map Nat.digitChar = []) := by simp
    simp only [hcons, false_and, true_and, if_false, ge_iff_le, not_false_eq_true]
    by_cases hlt : v < 2 ^ 63
    · rw [if_neg (Nat.not_le.mpr hlt), if_pos hlt]
    · rw [if_pos (Nat.not_lt.mp hlt), if_neg hlt]

/-- A value whose first character cannot start a number is not scanned. -/
theorem scanInt_no_number (c : Char) (rest : Str) (hsp : isSpace c = false) (hp : c ≠ '+')
    (hm : c ≠ '-') (hd : isDecimalDigit c = false) : scanInt (c :: rest) = none := by
  have hr : c ≠ '\r' := fun e => by rw [e] at hsp; exact absurd hsp (by decide)
  have hnl : c ≠ '\n' := fun e => by rw [e] at hsp; exact absurd hsp (by decide)
  have hskip : skipSpace (c :: rest) = some (c :: rest) := by
    simp [skipSpace, hr, hnl, hsp]
  unfold scanInt
  rw [hskip]
  simp [hp, hm, List.takeWhile, hd]

theorem skipSpace_append (ws r : Str) (hws : ∀ c ∈ ws, isSpace c = true ∧ c ≠ '\n') :
    skipSpace (ws ++ r) = skipSpace r := by
  induction ws with
  | nil => rfl
  | cons c ws ih =>
    have hc := hws c (by simp)
    have ih2 := ih (fun x hx => hws x (by simp [hx]))
    rw [List.cons_append, skipSpace]
    by_cases h1 : c = '\r' ∧ (ws ++ r).head? = some '\n'
    · rw [if_pos h1, ih2]
    · rw [if_neg h1, if_neg hc.2, hc.1, if_pos rfl, ih2]

theorem scanInt_append (ws r : Str) (hws : ∀ c ∈ ws, isSpace c = true ∧ c ≠ '\n') :
    scanInt (ws ++ r) = scanInt r := by
  unfold scanInt
  rw [skipSpace_append ws r hws]

theorem scanInt_nil : scanInt [] = none := rfl

theorem scanInt_newline (rest : Str) : scanInt ('\n' :: rest) = none := by
  have hskip : skipSpace ('\n' :: rest) = none := by
    rw [skipSpace, if_neg (fun h => absurd h.1 (by decide)), if_pos rfl]
  unfold scanInt
  rw [hskip]

/-- A sign that is not followed by a digit is not a number. -/
theorem scanInt_sign_only (s : Char) (t : Str) (hs : s = '+' ∨ s = '-')
    (ht : ∀ c, t.head? = some c → isDecimalDigit c = false) : scanInt (s :: t) = none := by
  have hsp : isSpace s = false := by rcases hs with rfl | rfl <;> rfl
  have hr : s ≠ '\r' := by rcases hs with rfl | rfl <;> decide
  have hnl : s ≠ '\n' := by rcases hs with rfl | rfl <;> decide
  have hskip : skipSpace (s :: t) = some (s :: t) := by
    simp [skipSpace, hr, hnl, hsp]
  have htok : t.takeWhile isDecimalDigit = [] := by
    cases t with
    | nil => rfl
    | cons c cs => simp [List.takeWhile, ht c rfl]
  unfold scanInt
  rw [hskip]
  simp only [hs, if_true, htok]

/-- A signed run of digits: the sign is kept, the range is that of a 64-bit integer. -/
theorem scanInt_signed (s : Char) (ds : List Nat) (rest : Str) (hs : s = '+' ∨ s = '-')
    (hne : ds ≠ []) (h : ∀ d ∈ ds, d < 10)
    (hrest : ∀ c, rest.head? = some c → isDecimalDigit c = false) :
    scanInt (s :: (ds.map Nat.digitChar ++ rest)) =
      if s = '-' then
        (if Nat.ofDigits 10 ds.reverse ≤ 2 ^ 63 then
          some (- ((Nat.ofDigits 10 ds.reverse : Nat) : Int)) else none)
      else
        (if Nat.ofDigits 10 ds.reverse < 2 ^ 63 then
          some ((Nat.ofDigits 10 ds.reverse : Nat) : Int) else none) := by
  have htok := takeWhile_digits ds rest h hrest
  have hval := parseDigits_digits ds 0 h
  rw [foldl_decimal] at hval
  have hsp : isSpace s = false := by rcases hs with rfl | rfl <;> rfl
  have hr : s ≠ '\r' := by rcases hs with rfl | rfl <;> decide
  have hnl : s ≠ '\n' := by rcases hs with rfl | rfl <;> decide
  have hskip : skipSpace (s :: (ds.map Nat.digitChar ++ rest))
      = some (s :: (ds.map Nat.digitChar ++ rest)) := by
    simp [skipSpace, hr, hnl, hsp]
  have hcons : ¬ (ds.map Nat.digitChar = []) := by
    cases ds with
    | nil => exact absurd rfl hne
    | cons d ds => simp
  have hswap : (s = '+' ∨ s = '-') = True := eq_true hs
  unfold scanInt
  rw [hskip]
  simp only [hswap, if_true, htok, hcons, if_false, List.singleton_append]
  unfold parseInt
  simp only [List.head?_cons, Option.some.injEq, hswap, if_true, List.tail_cons, hcons,
    if_false, hval]
  generalize Nat.ofDigits 10 ds.reverse = v
  rcases hs with rfl | rfl
  · have h1 : ¬ ('+' = '-') := by decide
    simp only [h1, not_false_eq_true, true_and, false_and, if_false, ge_iff_le]
    by_cases hlt : v < 2 ^ 63
    · rw [if_neg (Nat.not_le.mpr hlt), if_pos hlt]
    · rw [if_pos (Nat.not_lt.mp hlt), if_neg hlt]
  · simp only [not_true_eq_false, false_and, true_and, if_false, if_true, gt_iff_lt]
    by_cases hle : v ≤ 2 ^ 63
    · rw [if_neg (Nat.not_lt.mpr hle), if_pos hle]
    · rw [if_pos (Nat.not_le.mp hle), if_neg hle]

/-- The count used by the handler is the scanned number, or 3 when the scan fails. -/
theorem effectiveCount_eq (query : Query) :
    effectiveCount query = (scanInt (query.get "count".toList)).getD 3 := by
  unfold effectiveCount sscanfInt
  by_cases hv : query.get "count".toList = []
  · simp only [hv, ne_eq, not_true_eq_false, if_false, scanInt_nil, Option.getD_none]
  · simp only [ne_eq, hv, not_false_eq_true, if_true]
    cases scanInt (query.get "count".toList) <;> rfl

theorem digitChar_of_digit (c : Char) (h : isDecimalDigit c = true) :
    Nat.digitChar (c.toNat - 48) = c := by
  have hr : 48 ≤ c.toNat ∧ c.toNat ≤ 57 := by
    have h0 : '0'.toNat = 48 := rfl
    have h9 : '9'.toNat = 57 := rfl
    simpa [isDecimalDigit, h0, h9] using h
  have hgen : Nat.digitChar (c.toNat - 48) = Char.ofNat c.toNat := by
    generalize c.toNat = k at hr
    obtain ⟨h1, h2⟩ := hr
    interval_cases k <;> rfl
  rw [hgen, Char.ofNat_toNat]

/-- Every text that starts with a digit is a non-empty run of digits followed by a
text that does not start with a digit. -/
theorem digit_run (c : Char) (t : Str) (hc : isDecimalDigit c = true) :
    ∃ (ds : List Nat) (rest : Str), c :: t = ds.map Nat.digitChar ++ rest ∧ ds ≠ [] ∧
      (∀ d ∈ ds, d < 10) ∧ (∀ x, rest.head? = some x → isDecimalDigit x = false) := by
  refine ⟨((c :: t).takeWhile isDecimalDigit).map (fun x => x.toNat - 48),
    (c :: t).dropWhile isDecimalDigit, ?_, ?_, ?_, ?_⟩
  · have hmap : (((c :: t).takeWhile isDecimalDigit).map (fun x => x.toNat - 48)).map
        Nat.digitChar = (c :: t).takeWhile isDecimalDigit := by
      rw [List.map_map]
      conv_rhs => rw [← List.map_id ((c :: t).takeWhile isDecimalDigit)]
      apply List.map_congr_left
      intro x hx
      exact digitChar_of_digit x (List.mem_takeWhile_imp hx)
    rw [hmap, List.takeWhile_append_dropWhile]
  · simp [List.takeWhile, hc]
  · intro d hd
    obtain ⟨x, hx, rfl⟩ := List.mem_map.mp hd
    have hx2 := List.mem_takeWhile_imp hx
    have h9 : '9'.toNat = 57 := rfl
    have : x.toNat ≤ 57 := by
      simp only [isDecimalDigit, Bool.and_eq_true, decide_eq_true_eq, h9] at hx2
      exact hx2.2
    omega
  · intro x hx
    have h1 := List.head?_dropWhile_not isDecimalDigit (c :: t)
    rw [hx] at h1
    simpa using h1

/-- C9 (amended): the effective sample count is 3 when the `count` parameter is
absent or empty.  Otherwise the value is read as `Sscanf` reads `%d`: leading
white space other than a newline is skipped, one sign `+` or `-` is accepted,
and the run of decimal digits that follows is the number; whatever text comes
after the digits (nothing, `abc`, `.5`) is ignored.  The number, with its
sign, replaces the default when it fits a 64-bit integer (below `2^63`, or at
most `2^63` after `-`), and the count stays 3 when it does not fit.  The
count also stays 3 when no digit follows the optional sign: when after the
white space the value ends, continues with a newline, or continues with a
character that is neither a sign nor a digit, and when a sign is not directly
followed by a digit.  Every value has one of these shapes. -/
theorem effectiveCount_spec :
    (∀ query : Query,
      "count".toList ∉ query.map Prod.fst ∨ query.get "count".toList = [] →
      effectiveCount query = 3) ∧
    (∀ (query : Query) (ws sgn : Str) (ds : List Nat) (rest : Str),
      (∀ c ∈ ws, isSpace c = true ∧ c ≠ '\n') → (sgn = [] ∨ sgn = ['+'] ∨ sgn = ['-']) →
      ds ≠ [] → (∀ d ∈ ds, d < 10) →
      (∀ c, rest.head? = some c → isDecimalDigit c = false) →
      query.get "count".toList = ws ++ (sgn ++ (ds.map Nat.digitChar ++ rest)) →
      effectiveCount query =
        if sgn = ['-'] then
          (if Nat.ofDigits 10 ds.reverse ≤ 2 ^ 63 then
            - ((Nat.ofDigits 10 ds.reverse : Nat) : Int) else 3)
        else
          (if Nat.ofDigits 10 ds.reverse < 2 ^ 63 then
            ((Nat.ofDigits 10 ds.reverse : Nat) : Int) else 3)) ∧
    (∀ (query : Query) (ws r : Str), (∀ c ∈ ws, isSpace c = true ∧ c ≠ '\n') →
      (∀ c, r.head? = some c →
        c = '\n' ∨ (isSpace c = false ∧ c ≠ '+' ∧ c ≠ '-' ∧ isDecimalDigit c = false)) →
      query.get "count".toList = ws ++ r → effectiveCount query = 3) ∧
    (∀ (query : Query) (ws : Str) (s : Char) (t : Str),
      (∀ c ∈ ws, isSpace c = true ∧ c ≠ '\n') → (s = '+' ∨ s = '-') →
      (∀ c, t.head? = some c → isDecimalDigit c = false) →
      query.get "count".toList = ws ++ s :: t → effectiveCount query = 3) ∧
    (∀ v : Str, ∃ ws r : Str, v = ws ++ r ∧ (∀ c ∈ ws, isSpace c = true ∧ c ≠ '\n') ∧
      ((∀ c, r.head? = some c →
          c = '\n' ∨ (isSpace c = false ∧ c ≠ '+' ∧ c ≠ '-' ∧ isDecimalDigit c = false)) ∨
        (∃ (s : Char) (t : Str), r = s :: t ∧ (s = '+' ∨ s = '-') ∧
          ∀ c, t.head? = some c → isDecimalDigit c = false) ∨
        (∃ (sgn : Str) (ds : List Nat) (rest : Str),
          r = sgn ++ (ds.map Nat.digitChar ++ rest) ∧
          (sgn = [] ∨ sgn = ['+'] ∨ sgn = ['-']) ∧ ds ≠ [] ∧ (∀ d ∈ ds, d < 10) ∧
          ∀ c, rest.head? = some c → isDecimalDigit c = false))) := by
  refine ⟨?_, ?_, ?_, ?_, ?_⟩
  · intro query h
    have hempty : query.get "count".toList = [] := by
      rcases h with h | h
      · exact Query.get_of_absent query _ h
      · exact h
    rw [effectiveCount_eq, hempty, scanInt_nil]
    rfl
  · intro query ws sgn ds rest hws hsgn hne hds hrest hq
    rw [effectiveCount_eq, hq, scanInt_append ws _ hws]
    rcases hsgn with rfl | rfl | rfl
    · rw [List.nil_append, scanInt_digits ds rest hne hds hrest,
        if_neg (by decide : ¬ (([] : Str) = ['-']))]
      by_cases hlt : Nat.ofDigits 10 ds.reverse < 2 ^ 63
      · rw [if_pos hlt, if_pos hlt]
        rfl
      · rw [if_neg hlt, if_neg hlt]
        rfl
    · rw [List.singleton_append, scanInt_signed '+' ds rest (Or.inl rfl) hne hds hrest,
        if_neg (by decide : ¬ ('+' = '-')), if_neg (by decide : ¬ (['+'] = ['-']))]
      by_cases hlt : Nat.ofDigits 10 ds.reverse < 2 ^ 63
      · rw [if_pos hlt, if_pos hlt]
        rfl
      · rw [if_neg hlt, if_neg hlt]
        rfl
    · rw [List.singleton_append, scanInt_signed '-' ds rest (Or.inr rfl) hne hds hrest,
        if_pos rfl, if_pos rfl]
      by_cases hle : Nat.ofDigits 10 ds.reverse ≤ 2 ^ 63
      · rw [if_pos hle, if_pos hle]
        rfl
      · rw [if_neg hle, if_neg hle]
        rfl
  · intro query ws r hws hr hq
    rw [effectiveCount_eq, hq, scanInt_append ws _ hws]
    cases r with
    | nil => rfl
    | cons c t =>
      rcases hr c rfl with rfl | ⟨hsp, hp, hm, hd⟩
      · rw [scanInt_newline]
        rfl
      · rw [scanInt_no_number c t hsp hp hm hd]
        rfl
  · intro query ws s t hws hs ht hq
    rw [effectiveCount_eq, hq, scanInt_append ws _ hws, scanInt_sign_only s t hs ht]
    rfl
  · intro v
    refine ⟨v.takeWhile (fun c => isSpace c && c != '\n'),
      v.dropWhile (fun c => isSpace c && c != '\n'),
      (List.takeWhile_append_dropWhile _ v).symm, ?_, ?_⟩
    · intro c hc
      have := List.mem_takeWhile_imp hc
      simpa using this
    · have hhead := List.head?_dropWhile_not (fun c => isSpace c && c != '\n') v
      generalize v.dropWhile (fun c => isSpace c && c != '\n') = r at hhead
      cases r with
      | nil => exact Or.inl (fun c hc => by simp at hc)
      | cons c t =>
        have hc : isSpace c = false ∨ c = '\n' := by
          have h1 : (isSpace c && c != '\n') = false := by simpa using hhead
          by_cases hn : c = '\n'
          · exact Or.inr hn
          · left
            simpa [hn] using h1
        by_cases hn : c = '\n'
        · exact Or.inl (fun x hx => by
            simp only [List.head?_cons, Option.some.injEq] at hx
            exact Or.inl (hx ▸ hn))
        · have hsp : isSpace c = false := hc.resolve_right hn
          by_cases hsign : c = '+' ∨ c = '-'
          · cases t with
            | nil =>
              exact Or.inr (Or.inl ⟨c, [], rfl, hsign, fun x hx => by simp at hx⟩)
            | cons y u =>
              by_cases hy : isDecimalDigit y = true
              · obtain ⟨ds, rest, heq, hne, hds, hrest⟩ := digit_run y u hy
                refine Or.inr (Or.inr ⟨[c], ds, rest, ?_, ?_, hne, hds, hrest⟩)
                · rw [List.singleton_append, heq]
                · rcases hsign with rfl | rfl
                  · exact Or.inr (Or.inl rfl)
                  · exact Or.inr (Or.inr rfl)
              · refine Or.inr (Or.inl ⟨c, y :: u, rfl, hsign, fun x hx => ?_⟩)
                simp only [List.head?_cons, Option.some.injEq] at hx
                rw [← hx]
                simpa using hy
          · by_cases hd : isDecimalDigit c = true
            · obtain ⟨ds, rest, heq, hne, hds, hrest⟩ := digit_run c t hd
              exact Or.inr (Or.inr ⟨[], ds, rest, by rw [List.nil_append, heq], Or.inl rfl,
                hne, hds, hrest⟩)
            · refine Or.inl (fun x hx => ?_)
              simp only [List.head?_cons, Option.some.injEq] at hx
              rw [← hx]
              refine Or.inr ⟨hsp, fun e => hsign (Or.inl e), fun e => hsign (Or.inr e), ?_⟩
              simpa using hd

/-- C9, witness: `1.5` sets the count to 1, `12abc` to 12, `007` to 7, `-2` to -2,
` 7` (after a blank) to 7, `+4x` to 4; a number of twenty digits, `abc`, `-abc`,
a lone `+`, a value that starts with a newline and an absent parameter leave
it at 3. -/
theorem effectiveCount_spec_witness :
    effectiveCount [("count".toList, "1.5".toList)] = 1 ∧
    effectiveCount [("count".toList, "12abc".toList)] = 12 ∧
    effectiveCount [("count".toList, "007".toList)] = 7 ∧
    effectiveCount [("count".toList, "-2".toList)] = -2 ∧
    effectiveCount [("count".toList, " 7".toList)] = 7 ∧
    effectiveCount [("count".toList, "+4x".toList)] = 4 ∧
    effectiveCount [("count".toList, "99999999999999999999".toList)] = 3 ∧
    effectiveCount [("count".toList, "abc".toList)] = 3 ∧
    effectiveCount [("count".toList, "-abc".toList)] = 3 ∧
    effectiveCount [("count".toList, "+".toList)] = 3 ∧
    effectiveCount [("count".toList, "\n5".toList)] = 3 ∧
    effectiveCount [("image_path".toList, "/img.png".toList)] = 3 :=
  ⟨effectiveCount_spec.2.1 [("count".toList, "1.5".toList)] [] [] [1] ".5".toList
      (by decide) (by decide) (by decide) (by decide) (by decide) (by decide),
    effectiveCount_spec.2.1 [("count".toList, "12abc".toList)] [] [] [1, 2] "abc".toList
      (by decide) (by decide) (by decide) (by decide) (by decide) (by decide),
    effectiveCount_spec.2.1 [("count".toList, "007".toList)] [] [] [0, 0, 7] []
      (by decide) (by decide) (by decide) (by decide) (by decide) (by decide),
    effectiveCount_spec.2.1 [("count".toList, "-2".toList)] [] ['-'] [2] []
      (by decide) (by decide) (by decide) (by decide) (by decide) (by decide),
    effectiveCount_spec.2.1 [("count".toList, " 7".toList)] [' '] [] [7] []
      (by decide) (by decide) (by decide) (by decide) (by decide) (by decide),
    effectiveCount_spec.2.1 [("count".toList, "+4x".toList)] [] ['+'] [4] "x".toList
      (by decide) (by decide) (by decide) (by decide) (by decide) (by decide),
    effectiveCount_spec.2.1 [("count".toList, "99999999999999999999".toList)] [] []
      [9, 9, 9, 9, 9, 9, 9, 9, 9, 9, 9, 9, 9, 9, 9, 9, 9, 9, 9, 9] []
      (by decide) (by decide) (by decide) (by decide) (by decide) (by decide),
    effectiveCount_spec.2.2.1 [("count".toList, "abc".toList)] [] "abc".toList
      (by decide) (by decide) (by decide),
    effectiveCount_spec.2.2.2.1 [("count".toList, "-abc".toList)] [] '-' "abc".toList
      (by decide) (by decide) (by decide) (by decide),
    effectiveCount_spec.2.2.2.1 [("count".toList, "+".toList)] [] '+' []
      (by decide) (by decide) (by decide) (by decide),
    effectiveCount_spec.2.2.1 [("count".toList, "\n5".toList)] [] "\n5".toList
      (by decide) (by decide) (by decide),
    effectiveCount_spec.1 [("image_path".toList, "/img.png".toList)] (Or.inl (by decide))⟩

/-- C9, counterexample: `5abc` and `1.5` are not valid decimal integers, yet the
effective count becomes 5 and 1 instead of staying at the default 3. -/
theorem effectiveCount_counterexample :
    effectiveCount [("count".toList, "5abc".toList)] = 5 ∧
      effectiveCount [("count".toList, "5abc".toList)] ≠ 3 ∧
      effectiveCount [("count".toList, "1.5".toList)] ≠ 3 := by
  decide

end AltTextify
